import Mathlib

/-!
Verification model of the protothread framework in `framework/pt_thread.h`
together with the simplified protothread macros in `protothreads/pt.h`.

The embedding is a direct functional translation of the C++ source:

* `PTEventQueue` mirrors the circular event buffer (fields `events`,
  `head`, `tail`, `count`; capacity `MAX_EVENTS = 32`).  The interrupt
  critical sections guard single C statements and are invisible in the
  sequential semantics, so `push` and `pop` are plain state transformers.
* `ThreadObj`/`executeObj` mirror the private state of `PTThread` and the
  body of `PTThread::execute`.  A thread body (`run()` override) is an
  arbitrary function from the thread state to a new state and a status.
* `SchedState` with `addThreadS`, `removeThreadS`, `runLoop`/`runOnce`
  mirrors `PTScheduler`.  Thread pointers are modelled as natural
  numbers, with `0` playing the role of the null pointer; the heap of
  thread objects is a function from pointers to `ThreadObj`.
* The concrete thread bodies of the claims are translations of the
  expansion of the `PT_BEGIN` / `PT_WAIT_UNTIL` / `PT_YIELD` / `PT_END`
  macros of `protothreads/pt.h`, with the `__LINE__` resumption markers
  replaced by fixed nonzero constants.

Counters that are `uint32_t` in the source are incremented modulo
`UINT32 = 2 ^ 32`.
-/

/-- Return codes of a protothread body, `PT_WAITING = 0`, `PT_YIELDED = 1`,
`PT_EXITED = 2`, `PT_ENDED = 3` in `protothreads/pt.h`. -/
inductive PTStatus where
  | waiting
  | yielded
  | exited
  | ended
deriving DecidableEq, Repr

/-- Modulus for `uint32_t` counters. -/
def UINT32 : Nat := 2 ^ 32

/-- Event categories, the closed tag set `PTEventType` of `pt_thread.h`. -/
inductive PTEventType where
  | NONE
  | ENCODER_TURN
  | BUTTON_PRESS
  | BUTTON_RELEASE
  | GATE_RISING
  | GATE_FALLING
  | TIMER_TICK
  | ADC_READY
  | SCREEN_REFRESH
  | SEQUENCE_STEP
  | CV_CHANGE
  | USER_EVENT
deriving DecidableEq, Repr

/-- The `PTEvent` struct: category, 32-bit payload, timestamp, processed
flag. -/
structure PTEvent where
  type : PTEventType
  data : Nat
  timestamp : Nat
  processed : Bool
deriving DecidableEq, Repr

/-- The default-constructed `PTEvent`. -/
def PTEvent.mk0 : PTEvent := ⟨PTEventType.NONE, 0, 0, false⟩

/-- Queue capacity, `MAX_EVENTS` in `PTEventQueue`. -/
def MAX_EVENTS : Nat := 32

/-- The `PTEventQueue` circular buffer.  The fixed array
`std::array<PTEvent, MAX_EVENTS>` is modelled as a function from indices
to events; only indices below `MAX_EVENTS` are ever read or written. -/
structure PTEventQueue where
  events : Nat → PTEvent
  head : Nat
  tail : Nat
  count : Nat

/-- The default-constructed queue: `head = tail = count = 0`. -/
def PTEventQueue.init : PTEventQueue := ⟨fun _ => PTEvent.mk0, 0, 0, 0⟩

/-- `PTEventQueue::push`: fail if `count >= MAX_EVENTS`; otherwise write
at `head`, advance `head` modulo `MAX_EVENTS`, increment `count`. -/
def PTEventQueue.push (q : PTEventQueue) (e : PTEvent) : PTEventQueue × Bool :=
  if MAX_EVENTS ≤ q.count then (q, false)
  else ({ events := Function.update q.events q.head e,
          head := (q.head + 1) % MAX_EVENTS,
          tail := q.tail,
          count := q.count + 1 }, true)

/-- `PTEventQueue::pop`: fail if `count == 0`; otherwise read at `tail`,
advance `tail` modulo `MAX_EVENTS`, decrement `count`.  The event written
through the reference argument is modelled as the `Option` component. -/
def PTEventQueue.pop (q : PTEventQueue) : PTEventQueue × Option PTEvent :=
  if q.count = 0 then (q, none)
  else ({ events := q.events,
          head := q.head,
          tail := (q.tail + 1) % MAX_EVENTS,
          count := q.count - 1 }, some (q.events q.tail))

/-- `PTEventQueue::isEmpty`. -/
def PTEventQueue.isEmpty (q : PTEventQueue) : Bool := q.count = 0

/-- `PTEventQueue::size`. -/
def PTEventQueue.size (q : PTEventQueue) : Nat := q.count

/-- A queue operation: one call to `push` (with its argument) or `pop`. -/
inductive QOp where
  | push : PTEvent → QOp
  | pop : QOp

/-- One step of a queue history: apply the operation to the queue and
record whether it succeeded.  The state carries the queue, the number of
successful pushes, and the number of successful pops. -/
def qstep (st : PTEventQueue × Nat × Nat) (op : QOp) : PTEventQueue × Nat × Nat :=
  match op with
  | QOp.push e =>
      let r := st.1.push e
      (r.1, (if r.2 then st.2.1 + 1 else st.2.1), st.2.2)
  | QOp.pop =>
      let r := st.1.pop
      (r.1, st.2.1, (if r.2.isSome then st.2.2 + 1 else st.2.2))

/-- Run a sequence of queue operations from the empty queue. -/
def runQOps (ops : List QOp) : PTEventQueue × Nat × Nat :=
  ops.foldl qstep (PTEventQueue.init, 0, 0)

lemma qstep_inv (st : PTEventQueue × Nat × Nat) (op : QOp)
    (h : st.1.count ≤ MAX_EVENTS ∧ st.1.count + st.2.2 = st.2.1) :
    (qstep st op).1.count ≤ MAX_EVENTS ∧
      (qstep st op).1.count + (qstep st op).2.2 = (qstep st op).2.1 := by
  obtain ⟨h1, h2⟩ := h
  cases op with
  | push e =>
      simp only [qstep, PTEventQueue.push]
      by_cases hc : MAX_EVENTS ≤ st.1.count
      · simp [hc, h1, h2]
      · simp only [hc, if_false, if_true]
        constructor
        · simp only [MAX_EVENTS] at hc ⊢
          omega
        · omega
  | pop =>
      simp only [qstep, PTEventQueue.pop]
      by_cases hc : st.1.count = 0
      · simp [hc, h1, h2]
        omega
      · simp only [hc, if_false, Option.isSome_some, if_true]
        constructor
        · omega
        · omega

lemma foldl_qstep_inv (ops : List QOp) :
    ∀ st : PTEventQueue × Nat × Nat,
      st.1.count ≤ MAX_EVENTS ∧ st.1.count + st.2.2 = st.2.1 →
      (ops.foldl qstep st).1.count ≤ MAX_EVENTS ∧
        (ops.foldl qstep st).1.count + (ops.foldl qstep st).2.2 =
          (ops.foldl qstep st).2.1 := by
  induction ops with
  | nil => intro st h; simpa using h
  | cons op rest ih =>
      intro st h
      simpa using ih (qstep st op) (qstep_inv st op h)

/-- C8: for every sequence of push and pop operations starting from the
empty queue, `0 ≤ count ≤ MAX_EVENTS` holds (the lower bound is inherent
to `Nat`), and `count` equals the number of successful pushes minus the
number of successful pops; stated additively, `count` plus the successful
pops equals the successful pushes.  Since the theorem quantifies over all
operation sequences it holds at every step of any history. -/
theorem eventqueue_count_invariant (ops : List QOp) :
    (runQOps ops).1.count ≤ MAX_EVENTS ∧
      (runQOps ops).1.count + (runQOps ops).2.2 = (runQOps ops).2.1 := by
  have h0 : (PTEventQueue.init, 0, 0).1.count ≤ MAX_EVENTS ∧
      (PTEventQueue.init, (0 : Nat), (0 : Nat)).1.count +
        (PTEventQueue.init, (0 : Nat), (0 : Nat)).2.2 =
        (PTEventQueue.init, (0 : Nat), (0 : Nat)).2.1 := by
    simp [PTEventQueue.init, MAX_EVENTS]
  exact foldl_qstep_inv ops _ h0

/-- C5: a push on a full queue returns `false` and leaves the whole queue
state (head, tail, count, buffer) unchanged; a pop on an empty queue
returns `false` and likewise leaves the queue unchanged. -/
theorem eventqueue_full_empty_reject :
    (∀ (q : PTEventQueue) (e : PTEvent), q.count = MAX_EVENTS →
        q.push e = (q, false)) ∧
      (∀ q : PTEventQueue, q.count = 0 → q.pop = (q, none)) := by
  constructor
  · intro q e h
    simp [PTEventQueue.push, h]
  · intro q h
    simp [PTEventQueue.pop, h]

/-- A concrete queue that is full: `count = MAX_EVENTS`. -/
def fullQueue : PTEventQueue := ⟨fun _ => PTEvent.mk0, 0, 0, 32⟩

theorem eventqueue_full_empty_reject_witness :
    fullQueue.push PTEvent.mk0 = (fullQueue, false) ∧
      PTEventQueue.init.pop = (PTEventQueue.init, none) :=
  ⟨eventqueue_full_empty_reject.1 fullQueue PTEvent.mk0 rfl,
   eventqueue_full_empty_reject.2 PTEventQueue.init rfl⟩

/-- Well-formedness of a queue state: the states reachable from the
default constructor.  `head` sits `count` slots after `tail` modulo the
capacity, `count` never exceeds the capacity, and `tail` is a valid
index. -/
def PTEventQueue.Wf (q : PTEventQueue) : Prop :=
  q.head = (q.tail + q.count) % MAX_EVENTS ∧ q.count ≤ MAX_EVENTS ∧
    q.tail < MAX_EVENTS

/-- Abstraction of the circular buffer: the unread events in pop order,
oldest first. -/
def PTEventQueue.toList (q : PTEventQueue) : List PTEvent :=
  (List.range q.count).map (fun i => q.events ((q.tail + i) % MAX_EVENTS))

lemma wf_init : PTEventQueue.init.Wf := by
  refine ⟨?_, ?_, ?_⟩ <;> simp [PTEventQueue.init, MAX_EVENTS]

lemma toList_init : PTEventQueue.init.toList = [] := by
  simp [PTEventQueue.toList, PTEventQueue.init]

lemma toList_length (q : PTEventQueue) : q.toList.length = q.count := by
  simp [PTEventQueue.toList]

lemma push_toList (q : PTEventQueue) (e : PTEvent) (hWf : q.Wf)
    (hlt : q.count < MAX_EVENTS) :
    (q.push e).2 = true ∧ (q.push e).1.Wf ∧
      (q.push e).1.count = q.count + 1 ∧
      (q.push e).1.toList = q.toList ++ [e] := by
  obtain ⟨hh, hc, ht⟩ := hWf
  have hnot : ¬ MAX_EVENTS ≤ q.count := by omega
  simp only [PTEventQueue.push, hnot, if_false]
  refine ⟨trivial, ⟨?_, ?_, ?_⟩, trivial, ?_⟩
  · simp only [hh, MAX_EVENTS] at *
    omega
  · simp only [MAX_EVENTS] at *
    omega
  · exact ht
  · simp only [PTEventQueue.toList, List.range_succ, List.map_append,
      List.map_cons, List.map_nil]
    congr 1
    · apply List.map_congr_left
      intro i hi
      have hi2 : i < q.count := List.mem_range.mp hi
      apply Function.update_noteq
      simp only [MAX_EVENTS] at *
      omega
    · have he : (q.tail + q.count) % MAX_EVENTS = q.head := hh.symm
      rw [he, Function.update_same]

lemma pop_toList (q : PTEventQueue) (hWf : q.Wf) (hpos : 0 < q.count) :
    (q.pop).2 = some (q.events q.tail) ∧ (q.pop).1.Wf ∧
      (q.pop).1.count = q.count - 1 ∧
      q.toList = q.events q.tail :: (q.pop).1.toList := by
  obtain ⟨hh, hc, ht⟩ := hWf
  have hnz : ¬ q.count = 0 := by omega
  simp only [PTEventQueue.pop, hnz, if_false]
  refine ⟨trivial, ⟨?_, ?_, ?_⟩, trivial, ?_⟩
  · simp only [hh, MAX_EVENTS] at *
    omega
  · simp only [MAX_EVENTS] at *
    omega
  · simp only [MAX_EVENTS] at *
    omega
  · obtain ⟨c, hcc⟩ : ∃ c, q.count = c + 1 := ⟨q.count - 1, by omega⟩
    simp only [PTEventQueue.toList, hcc, Nat.add_sub_cancel,
      List.range_succ_eq_map, List.map_cons, List.map_map]
    have h0 : (q.tail + 0) % MAX_EVENTS = q.tail := by
      simpa using Nat.mod_eq_of_lt ht
    rw [h0]
    congr 1
    apply List.map_congr_left
    intro i hi
    simp only [Function.comp_apply, Nat.succ_eq_add_one]
    congr 1
    simp only [MAX_EVENTS] at *
    omega

/-- Push a list of events in order; the boolean records whether every
push succeeded. -/
def pushAll (q : PTEventQueue) (es : List PTEvent) : PTEventQueue × Bool :=
  match es with
  | [] => (q, true)
  | e :: rest =>
      let r := q.push e
      let r2 := pushAll r.1 rest
      (r2.1, r.2 && r2.2)

/-- Pop `n` times, collecting the successfully popped events in order. -/
def popN (q : PTEventQueue) : Nat → List PTEvent
  | 0 => []
  | n + 1 =>
      match q.pop with
      | (q1, some e) => e :: popN q1 n
      | (_, none) => []

lemma pushAll_toList (es : List PTEvent) :
    ∀ q : PTEventQueue, q.Wf → q.count + es.length ≤ MAX_EVENTS →
      (pushAll q es).2 = true ∧ (pushAll q es).1.Wf ∧
        (pushAll q es).1.count = q.count + es.length ∧
        (pushAll q es).1.toList = q.toList ++ es := by
  induction es with
  | nil => intro q hWf _; simpa [pushAll] using hWf
  | cons e rest ih =>
      intro q hWf hcap
      have hlt : q.count < MAX_EVENTS := by
        simp only [List.length_cons] at hcap
        omega
      obtain ⟨hok, hWf1, hcnt1, hlist1⟩ := push_toList q e hWf hlt
      have hcap1 : (q.push e).1.count + rest.length ≤ MAX_EVENTS := by
        simp only [hcnt1, List.length_cons] at *
        omega
      obtain ⟨hok2, hWf2, hcnt2, hlist2⟩ := ih (q.push e).1 hWf1 hcap1
      refine ⟨?_, ?_, ?_, ?_⟩
      · simp [pushAll, hok, hok2]
      · simpa [pushAll] using hWf2
      · simp only [pushAll, List.length_cons]
        rw [hcnt2, hcnt1]
        omega
      · simp only [pushAll]
        rw [hlist2, hlist1]
        simp

lemma popN_eq_toList : ∀ (n : Nat) (q : PTEventQueue), q.Wf → q.count = n →
    popN q n = q.toList := by
  intro n
  induction n with
  | zero =>
      intro q _ hc
      simp [popN, PTEventQueue.toList, hc]
  | succ m ih =>
      intro q hWf hc
      have hpos : 0 < q.count := by omega
      obtain ⟨hsome, hWf1, hcnt1, hlist⟩ := pop_toList q hWf hpos
      have hpop : q.pop = ((q.pop).1, some (q.events q.tail)) := by
        rw [← hsome]
      rw [hlist]
      simp only [popN]
      rw [hpop]
      simp only
      congr 1
      exact ih (q.pop).1 hWf1 (by omega)

/-- One step of an abstract FIFO history: apply the operation to the
queue, appending the event to the first list when a push succeeds (events
dropped by a full queue are not recorded) and to the second list when a
pop returns an event. -/
def fstep (st : PTEventQueue × List PTEvent × List PTEvent) (op : QOp) :
    PTEventQueue × List PTEvent × List PTEvent :=
  match op with
  | QOp.push e =>
      let r := st.1.push e
      (r.1, (if r.2 then st.2.1 ++ [e] else st.2.1), st.2.2)
  | QOp.pop =>
      let r := st.1.pop
      (r.1, st.2.1,
        (match r.2 with
         | some e => st.2.2 ++ [e]
         | none => st.2.2))

/-- Run a sequence of push and pop operations from the empty queue,
recording the successfully pushed events and the popped events in
order. -/
def runFOps (ops : List QOp) : PTEventQueue × List PTEvent × List PTEvent :=
  ops.foldl fstep (PTEventQueue.init, [], [])

lemma fstep_inv (st : PTEventQueue × List PTEvent × List PTEvent) (op : QOp)
    (h : st.1.Wf ∧ st.2.2 ++ st.1.toList = st.2.1) :
    (fstep st op).1.Wf ∧
      (fstep st op).2.2 ++ (fstep st op).1.toList = (fstep st op).2.1 := by
  obtain ⟨hWf, hfifo⟩ := h
  cases op with
  | push e =>
      by_cases hfull : MAX_EVENTS ≤ st.1.count
      · have hp : st.1.push e = (st.1, false) := by
          simp [PTEventQueue.push, hfull]
        simp only [fstep, hp]
        exact ⟨hWf, by simpa using hfifo⟩
      · have hlt : st.1.count < MAX_EVENTS := by omega
        obtain ⟨hok, hWf1, _, hlist⟩ := push_toList st.1 e hWf hlt
        have hp : st.1.push e = ((st.1.push e).1, true) := by
          rw [← hok]
        simp only [fstep]
        rw [hp]
        refine ⟨hWf1, ?_⟩
        simp only [if_true]
        rw [hlist, ← List.append_assoc, hfifo]
  | pop =>
      by_cases hemp : st.1.count = 0
      · have hp : st.1.pop = (st.1, none) := by
          simp [PTEventQueue.pop, hemp]
        simp only [fstep, hp]
        exact ⟨hWf, hfifo⟩
      · have hpos : 0 < st.1.count := by omega
        obtain ⟨hsome, hWf1, _, hlist⟩ := pop_toList st.1 hWf hpos
        have hp : st.1.pop = ((st.1.pop).1, some (st.1.events st.1.tail)) := by
          rw [← hsome]
        simp only [fstep]
        rw [hp]
        refine ⟨hWf1, ?_⟩
        simp only
        rw [List.append_assoc, List.singleton_append, ← hlist, hfifo]

lemma foldl_fstep_inv (ops : List QOp) :
    ∀ st : PTEventQueue × List PTEvent × List PTEvent,
      st.1.Wf ∧ st.2.2 ++ st.1.toList = st.2.1 →
      (ops.foldl fstep st).1.Wf ∧
        (ops.foldl fstep st).2.2 ++ (ops.foldl fstep st).1.toList =
          (ops.foldl fstep st).2.1 := by
  induction ops with
  | nil => intro st h; simpa using h
  | cons op rest ih =>
      intro st h
      simpa using ih (fstep st op) (fstep_inv st op h)

/-- C6: FIFO order.  First, the general guarantee, over every sequence of
push and pop operations from the empty queue (with drops, interleaving,
and wrap-around all allowed): the events returned by pops, followed by
the events still unread in the buffer, are exactly the successfully
pushed (not dropped) events in push order — so pops return events in push
order among events that were not dropped, at every step of every history.
Second, the concrete scenario: pushing any events A, B, C in that order
onto the empty queue makes all three pushes succeed and the next three
pops return A, B, C in that order. -/
theorem eventqueue_fifo_general :
    (∀ ops : List QOp,
      (runFOps ops).2.2 ++ (runFOps ops).1.toList = (runFOps ops).2.1) ∧
    (∀ A B C : PTEvent,
      (pushAll PTEventQueue.init [A, B, C]).2 = true ∧
        popN (pushAll PTEventQueue.init [A, B, C]).1 3 = [A, B, C]) := by
  constructor
  · intro ops
    refine (foldl_fstep_inv ops (PTEventQueue.init, [], []) ⟨wf_init, ?_⟩).2
    simp [toList_init]
  · intro A B C
    have h0 : PTEventQueue.init.count + ([A, B, C] : List PTEvent).length ≤
        MAX_EVENTS := by
      simp [PTEventQueue.init, MAX_EVENTS]
    obtain ⟨hok, hWf, hcnt, hlist⟩ :=
      pushAll_toList [A, B, C] PTEventQueue.init wf_init h0
    refine ⟨hok, ?_⟩
    rw [popN_eq_toList 3 (pushAll PTEventQueue.init [A, B, C]).1 hWf
      (by rw [hcnt]; simp [PTEventQueue.init]), hlist, toList_init]
    simp

/-- The private state of a `PTThread`: the protothread continuation
`thread_pt.lc`, the `active` flag, the run counter, the last-run
timestamp, and whether `setEventQueue` has bound the scheduler queue.
The `name` string plays no behavioural role and is omitted. -/
structure ThreadObj where
  lc : Nat
  active : Bool
  run_count : Nat
  last_run_time : Nat
  hasQueue : Bool
deriving DecidableEq, Repr

/-- A freshly constructed `PTThread`: `PT_INIT` zeroes `lc`, `active` is
true, counters are zero, no queue bound yet. -/
def ThreadObj.init : ThreadObj := ⟨0, true, 0, 0, false⟩

/-- `PTThread::execute`.  If the thread is inactive it returns `PT_EXITED`
at once; otherwise it records the current time, invokes the body once,
increments the run counter, and clears `active` when the body returned a
terminal status.  `body` is the `run()` override; `now` is the value of
`time_us_32()` at this invocation. -/
def executeObj (body : ThreadObj → ThreadObj × PTStatus) (now : Nat)
    (o : ThreadObj) : ThreadObj × PTStatus :=
  if o.active = false then (o, PTStatus.exited)
  else
    let o1 : ThreadObj := { o with last_run_time := now }
    let r := body o1
    let o2 : ThreadObj := { r.1 with run_count := (r.1.run_count + 1) % UINT32 }
    if r.2 = PTStatus.ended ∨ r.2 = PTStatus.exited then
      ({ o2 with active := false }, r.2)
    else (o2, r.2)

/-- A body that ends immediately: `PT_BEGIN; PT_END` from the initial
marker returns `PT_ENDED` and resets the marker to 0. -/
def bodyEnd (o : ThreadObj) : ThreadObj × PTStatus :=
  ({ o with lc := 0 }, PTStatus.ended)

/-- C3 counterexample: a thread whose body returns `ENDED` on its first
`execute()` has last terminal status `ENDED`, yet the next `execute()`
returns `EXITED`, not that last terminal status — `PTThread::execute`
returns the constant `PT_EXITED` whenever the thread is inactive. -/
theorem execute_inactive_not_last_status :
    (executeObj bodyEnd 0 ThreadObj.init).2 = PTStatus.ended ∧
      (executeObj bodyEnd 0 ThreadObj.init).1.active = false ∧
      (executeObj bodyEnd 1 (executeObj bodyEnd 0 ThreadObj.init).1).2 =
        PTStatus.exited ∧
      PTStatus.exited ≠ PTStatus.ended := by
  refine ⟨?_, ?_, ?_, ?_⟩ <;> decide

/-- C3 amended: `execute()` on a thread whose active flag is cleared
returns `EXITED` immediately and without side effects — the returned
state is literally the input state for every body, so the body is not
invoked and the resumption marker, run counter, and last-run timestamp
are unchanged. -/
theorem execute_inactive_noop
    (body : ThreadObj → ThreadObj × PTStatus) (now : Nat) (o : ThreadObj)
    (h : o.active = false) : executeObj body now o = (o, PTStatus.exited) := by
  simp [executeObj, h]

/-- A stopped thread object, as left by `PTThread::stop`. -/
def stoppedObj : ThreadObj := { ThreadObj.init with active := false }

theorem execute_inactive_noop_witness :
    executeObj bodyEnd 7 stoppedObj = (stoppedObj, PTStatus.exited) :=
  execute_inactive_noop bodyEnd 7 stoppedObj rfl

/-- Resumption marker recorded by the `PT_YIELD` expansion in the C1 body;
in the source it is the `__LINE__` of the macro invocation, any fixed
nonzero value. -/
def yieldMark : Nat := 9

/-- State of the C1 test thread: the `PTThread` fields plus two
instrumentation counters recording how many times the statement before
the yield (`runsA`) and the statement after the yield (`runsB`) have
executed. -/
structure C1Thread where
  lc : Nat
  active : Bool
  run_count : Nat
  last_run_time : Nat
  runsA : Nat
  runsB : Nat
deriving DecidableEq, Repr

/-- The freshly initialised C1 thread. -/
def C1Thread.start : C1Thread := ⟨0, true, 0, 0, 0, 0⟩

/-- Body `PT_BEGIN; A; PT_YIELD; B; PT_END` after macro expansion with the
`pt.h` of this repository.  The expansion is
`switch (lc) \x7b case 0: A; do \x7b lc = yieldMark; case yieldMark:
return PT_YIELDED; \x7d while (0); B; \x7d lc = 0; return PT_ENDED;`.
Dispatch on `lc = yieldMark` jumps to the case label that sits before
`return PT_YIELDED`, so that invocation returns `PT_YIELDED` again
without reaching `B`; an out-of-range marker skips the whole switch and
falls into the `PT_END` epilogue. -/
def c1run (s : C1Thread) : C1Thread × PTStatus :=
  if s.lc = 0 then
    ({ s with runsA := s.runsA + 1, lc := yieldMark }, PTStatus.yielded)
  else if s.lc = yieldMark then
    (s, PTStatus.yielded)
  else
    ({ s with lc := 0 }, PTStatus.ended)

/-- `PTThread::execute` specialised to the C1 thread state. -/
def c1execute (now : Nat) (s : C1Thread) : C1Thread × PTStatus :=
  if s.active = false then (s, PTStatus.exited)
  else
    let s1 : C1Thread := { s with last_run_time := now }
    let r := c1run s1
    let s2 : C1Thread := { r.1 with run_count := (r.1.run_count + 1) % UINT32 }
    if r.2 = PTStatus.ended ∨ r.2 = PTStatus.exited then
      ({ s2 with active := false }, r.2)
    else (s2, r.2)

/-- The C1 thread after `n` invocations of `execute()`, the invocation
number serving as the timestamp. -/
def c1iter : Nat → C1Thread
  | 0 => C1Thread.start
  | n + 1 => (c1execute n (c1iter n)).1

/-- C1: the code does not satisfy the claim.  After the first invocation
returns `YIELDED`, every later invocation finds `lc = yieldMark`, jumps
to the case label placed before `return PT_YIELDED`, and returns
`YIELDED` again: the statement after the yield never executes
(`runsB = 0` forever), instead of resuming immediately after the yield
as the claim states. -/
theorem pt_yield_never_resumes (n : Nat) :
    (c1iter (n + 1)).lc = yieldMark ∧ (c1iter (n + 1)).active = true ∧
      (c1iter (n + 1)).runsB = 0 ∧
      (c1execute (n + 1) (c1iter (n + 1))).2 = PTStatus.yielded := by
  induction n with
  | zero =>
      refine ⟨?_, ?_, ?_, ?_⟩ <;> decide
  | succ m ih =>
      obtain ⟨hlc, hact, hB, _⟩ := ih
      have hstep : c1iter (m + 2) = (c1execute (m + 1) (c1iter (m + 1))).1 := rfl
      have hy : ¬ yieldMark = 0 := by decide
      constructor
      · rw [hstep]
        simp [c1execute, c1run, hlc, hact, hy]
      constructor
      · rw [hstep]
        simp [c1execute, c1run, hlc, hact, hy]
      constructor
      · rw [hstep]
        simp [c1execute, c1run, hlc, hact, hy, hB]
      · rw [hstep]
        simp [c1execute, c1run, hlc, hact, hy]

/-- Resumption marker recorded by the `PT_WAIT_UNTIL` expansion in the C2
body; in the source it is the `__LINE__` of the macro invocation, any
fixed nonzero value. -/
def waitMark : Nat := 6

/-- State of the C2 test thread: the `PTThread` fields plus the two flags
of the claim and an instrumentation counter `sets1` recording how many
times the `flag1 = true` assignment has executed. -/
structure C2Thread where
  lc : Nat
  active : Bool
  run_count : Nat
  last_run_time : Nat
  flag1 : Bool
  flag2 : Bool
  sets1 : Nat
deriving DecidableEq, Repr

/-- The freshly initialised C2 thread. -/
def C2Thread.start : C2Thread := ⟨0, true, 0, 0, false, false, 0⟩

/-- Body `PT_BEGIN; flag1 = true; PT_WAIT_UNTIL(x); flag2 = true; PT_END`
after macro expansion.  The expansion is
`switch (lc) \x7b case 0: flag1 = true; do \x7b lc = waitMark;
case waitMark: if (!x) return PT_WAITING; \x7d while (0);
flag2 = true; \x7d lc = 0; return PT_ENDED;`.
From `lc = 0` the body sets `flag1`, records the marker, and tests `x`;
dispatch on `lc = waitMark` jumps straight to the re-test of `x` without
re-running the `flag1` assignment; when `x` holds, execution falls
through to the `flag2` assignment and the `PT_END` epilogue in the same
invocation.  `x` is the external condition read by the body. -/
def c2run (x : Bool) (s : C2Thread) : C2Thread × PTStatus :=
  if s.lc = 0 then
    let s1 : C2Thread := { s with flag1 := true, sets1 := s.sets1 + 1,
                                  lc := waitMark }
    if x = false then (s1, PTStatus.waiting)
    else ({ s1 with flag2 := true, lc := 0 }, PTStatus.ended)
  else if s.lc = waitMark then
    if x = false then (s, PTStatus.waiting)
    else ({ s with flag2 := true, lc := 0 }, PTStatus.ended)
  else
    ({ s with lc := 0 }, PTStatus.ended)

/-- `PTThread::execute` specialised to the C2 thread state. -/
def c2execute (x : Bool) (now : Nat) (s : C2Thread) : C2Thread × PTStatus :=
  if s.active = false then (s, PTStatus.exited)
  else
    let s1 : C2Thread := { s with last_run_time := now }
    let r := c2run x s1
    let s2 : C2Thread := { r.1 with run_count := (r.1.run_count + 1) % UINT32 }
    if r.2 = PTStatus.ended ∨ r.2 = PTStatus.exited then
      ({ s2 with active := false }, r.2)
    else (s2, r.2)

/-- C2: with the body `flag1 = true; WaitUntil(x); flag2 = true`, the
first `execute()` with `x` false sets `flag1` only and returns `WAITING`;
after `x` becomes true, the next `execute()` resumes at the wait, re-tests
`x`, sets `flag2` in that same invocation, and does not re-execute the
`flag1` assignment (the assignment counter stays at 1). -/
theorem waituntil_suspend_resume :
    (c2execute false 0 C2Thread.start).2 = PTStatus.waiting ∧
      (c2execute false 0 C2Thread.start).1.flag1 = true ∧
      (c2execute false 0 C2Thread.start).1.flag2 = false ∧
      (c2execute false 0 C2Thread.start).1.sets1 = 1 ∧
      (c2execute true 1 (c2execute false 0 C2Thread.start).1).1.flag2 = true ∧
      (c2execute true 1 (c2execute false 0 C2Thread.start).1).1.flag1 = true ∧
      (c2execute true 1 (c2execute false 0 C2Thread.start).1).1.sets1 = 1 := by
  refine ⟨?_, ?_, ?_, ?_, ?_, ?_, ?_⟩ <;> decide

/-- Scheduler capacity, `MAX_THREADS` in `PTScheduler`. -/
def MAX_THREADS : Nat := 16

/-- The `PTScheduler` state: the ordered array of registered thread
pointers (as a list of length `thread_count`), the heap mapping each
pointer to its `PTThread` object, the owned global event queue, and the
tick counter.  Thread pointers are naturals with `0` as the null
pointer. -/
structure SchedState where
  threads : List Nat
  objs : Nat → ThreadObj
  queue : PTEventQueue
  scheduler_ticks : Nat

/-- A freshly constructed scheduler over a given heap of thread
objects. -/
def SchedState.start (h : Nat → ThreadObj) : SchedState :=
  ⟨[], h, PTEventQueue.init, 0⟩

/-- `PTScheduler::addThread`: fail if the list is full or the pointer is
null; otherwise append the pointer and bind the scheduler queue into the
thread (`setEventQueue`). -/
def addThreadS (s : SchedState) (t : Nat) : SchedState × Bool :=
  if MAX_THREADS ≤ s.threads.length ∨ t = 0 then (s, false)
  else
    ({ s with
        threads := s.threads ++ [t],
        objs := Function.update s.objs t { s.objs t with hasQueue := true } },
      true)

/-- The list part of `PTScheduler::removeThread`: linear search for the
first occurrence, shift the remaining entries left by one. -/
def removeList (t : Nat) : List Nat → List Nat × Bool
  | [] => ([], false)
  | x :: xs =>
      if x = t then (xs, true)
      else ((x :: (removeList t xs).1), (removeList t xs).2)

/-- `PTScheduler::removeThread`. -/
def removeThreadS (s : SchedState) (t : Nat) : SchedState × Bool :=
  ({ s with threads := (removeList t s.threads).1 }, (removeList t s.threads).2)

/-- The loop body of `PTScheduler::runOnce`, written with explicit fuel.
At index `i`: if the entry is non-null and active, call `execute()`; on a
terminal status call `removeThread` and revisit the same index (the
`i--; i++` of the source); otherwise move to the next index.  Each
iteration decreases `threads.length - i`, so fuel `threads.length`
reproduces the full C++ loop (see `runLoop_fuel_irrel`). -/
def runLoop (bodies : Nat → ThreadObj → ThreadObj × PTStatus) (now : Nat) :
    Nat → SchedState → Nat → SchedState
  | 0, s, _ => s
  | fuel + 1, s, i =>
      if h : i < s.threads.length then
        let t := s.threads.get ⟨i, h⟩
        if t ≠ 0 ∧ (s.objs t).active = true then
          let r := executeObj (bodies t) now (s.objs t)
          let s1 : SchedState := { s with objs := Function.update s.objs t r.1 }
          if r.2 = PTStatus.ended ∨ r.2 = PTStatus.exited then
            runLoop bodies now fuel (removeThreadS s1 t).1 i
          else
            runLoop bodies now fuel s1 (i + 1)
        else
          runLoop bodies now fuel s (i + 1)
      else s

/-- `PTScheduler::runOnce`: increment the tick counter, then one pass of
the loop from index 0.  `bodies` assigns to every thread pointer the
`run()` override of the object it points to; `now` is the timestamp seen
by the executed threads. -/
def runOnce (bodies : Nat → ThreadObj → ThreadObj × PTStatus) (now : Nat)
    (s : SchedState) : SchedState :=
  runLoop bodies now s.threads.length
    { s with scheduler_ticks := (s.scheduler_ticks + 1) % UINT32 } 0

/-- A scheduler operation: one call to `addThread`, `removeThread`, or
`runOnce`. -/
inductive SOp where
  | add : Nat → SOp
  | remove : Nat → SOp
  | runOnce : SOp

/-- Apply one scheduler operation. -/
def applySOp (bodies : Nat → ThreadObj → ThreadObj × PTStatus) (now : Nat)
    (s : SchedState) : SOp → SchedState
  | SOp.add t => (addThreadS s t).1
  | SOp.remove t => (removeThreadS s t).1
  | SOp.runOnce => runOnce bodies now s

/-- Run a sequence of scheduler operations. -/
def runSOps (bodies : Nat → ThreadObj → ThreadObj × PTStatus) (now : Nat)
    (s : SchedState) : List SOp → SchedState
  | [] => s
  | op :: ops => runSOps bodies now (applySOp bodies now s op) ops

/-- A trivial body that always reports `PT_WAITING`. -/
def bodyWaiting (o : ThreadObj) : ThreadObj × PTStatus := (o, PTStatus.waiting)

/-- The body family in which every thread always waits. -/
def bodiesWaiting : Nat → ThreadObj → ThreadObj × PTStatus :=
  fun _ => bodyWaiting

/-- A heap in which every pointer holds a freshly constructed thread. -/
def heap0 : Nat → ThreadObj := fun _ => ThreadObj.init

/-- C4 counterexample: `addThread` performs no duplicate check, so adding
the same non-null pointer twice to an empty scheduler leaves it twice in
the list — the no-duplicates invariant fails for this operation
sequence. -/
theorem scheduler_duplicate_add :
    (runSOps bodiesWaiting 0 (SchedState.start heap0)
        [SOp.add 1, SOp.add 1]).threads = [1, 1] ∧
      ¬ (runSOps bodiesWaiting 0 (SchedState.start heap0)
          [SOp.add 1, SOp.add 1]).threads.Nodup := by
  refine ⟨?_, ?_⟩ <;> decide

/-- Call `addThread` once per pointer in the list, collecting the returned
booleans in order. -/
def addAll (s : SchedState) : List Nat → SchedState × List Bool
  | [] => (s, [])
  | t :: ts =>
      let r := addThreadS s t
      let rest := addAll r.1 ts
      (rest.1, r.2 :: rest.2)

/-- Body family of the C7 scenario: thread 2 returns `EXITED` on its very
first (and any) invocation, threads 1 and 3 report `WAITING`. -/
def bodies7 : Nat → ThreadObj → ThreadObj × PTStatus :=
  fun t o => if t = 2 then (o, PTStatus.exited) else (o, PTStatus.waiting)

/-- The scheduler of the C7 scenario: threads 1, 2, 3 registered in that
order, all freshly constructed and active. -/
def sched7 : SchedState := (addAll (SchedState.start heap0) [1, 2, 3]).1

/-- C7: removal during a pass.  With three active threads registered in
order 1, 2, 3 and thread 2 returning `EXITED` on its very first
`execute()`, a single `runOnce()` invokes each of the three exactly once
(each run counter is 1), leaves exactly threads 1 and 3 registered, and
preserves their relative order. -/
theorem scheduler_removal_during_pass :
    (runOnce bodies7 0 sched7).threads = [1, 3] ∧
      ((runOnce bodies7 0 sched7).objs 1).run_count = 1 ∧
      ((runOnce bodies7 0 sched7).objs 2).run_count = 1 ∧
      ((runOnce bodies7 0 sched7).objs 3).run_count = 1 ∧
      ((runOnce bodies7 0 sched7).objs 2).active = false := by
  refine ⟨?_, ?_, ?_, ?_, ?_⟩ <;> decide

/-- C9: capacity boundary.  Adding 17 distinct non-null threads to an
empty scheduler succeeds for the first `MAX_THREADS = 16` calls, fails on
the final call, and leaves exactly 16 threads registered; `addThread`
with the null pointer always fails and leaves the scheduler
unchanged. -/
theorem scheduler_capacity_boundary :
    (addAll (SchedState.start heap0)
        [1, 2, 3, 4, 5, 6, 7, 8, 9, 10, 11, 12, 13, 14, 15, 16, 17]).2 =
      [true, true, true, true, true, true, true, true, true, true, true,
        true, true, true, true, true, false] ∧
      (addAll (SchedState.start heap0)
          [1, 2, 3, 4, 5, 6, 7, 8, 9, 10, 11, 12, 13, 14, 15, 16, 17]).1.threads.length =
        MAX_THREADS ∧
      ∀ s : SchedState, addThreadS s 0 = (s, false) := by
  refine ⟨by decide, by decide, ?_⟩
  intro s
  simp [addThreadS]

lemma removeList_found (t : Nat) :
    ∀ l : List Nat, t ∈ l → (removeList t l).2 = true := by
  intro l
  induction l with
  | nil => intro h; cases h
  | cons x xs ih =>
      intro h
      by_cases hx : x = t
      · simp [removeList, hx]
      · have : t ∈ xs := by
          cases h with
          | head => exact absurd rfl hx
          | tail _ h2 => exact h2
        simp [removeList, hx, ih this]

lemma removeList_length (t : Nat) :
    ∀ l : List Nat, (removeList t l).2 = true →
      (removeList t l).1.length + 1 = l.length := by
  intro l
  induction l with
  | nil => intro h; simp [removeList] at h
  | cons x xs ih =>
      intro h
      by_cases hx : x = t
      · simp [removeList, hx]
      · simp only [removeList, hx, if_false] at h ⊢
        simp only [List.length_cons]
        have := ih h
        omega

lemma removeList_sublist (t : Nat) :
    ∀ l : List Nat, (removeList t l).1.Sublist l := by
  intro l
  induction l with
  | nil => simp [removeList]
  | cons x xs ih =>
      by_cases hx : x = t
      · simp only [removeList, hx, if_true]
        exact List.sublist_cons_self _ _
      · simp only [removeList, hx, if_false]
        exact List.Sublist.cons₂ x ih

lemma removeList_nodup (t : Nat) (l : List Nat) (h : l.Nodup) :
    (removeList t l).1.Nodup :=
  List.Nodup.sublist (removeList_sublist t l) h

lemma removeList_mem_of_ne (t u : Nat) (hne : u ≠ t) :
    ∀ l : List Nat, u ∈ l → u ∈ (removeList t l).1 := by
  intro l
  induction l with
  | nil => intro h; cases h
  | cons x xs ih =>
      intro h
      by_cases hx : x = t
      · simp only [removeList, hx, if_true]
        cases h with
        | head => exact absurd hx hne
        | tail _ h2 => exact h2
      · simp only [removeList, hx, if_false]
        cases h with
        | head => exact List.mem_cons_self u _
        | tail _ h2 => exact List.mem_cons_of_mem x (ih h2)

lemma runLoop_zero (bodies : Nat → ThreadObj → ThreadObj × PTStatus)
    (now : Nat) (s : SchedState) (i : Nat) :
    runLoop bodies now 0 s i = s := rfl

lemma runLoop_succ (bodies : Nat → ThreadObj → ThreadObj × PTStatus)
    (now fuel : Nat) (s : SchedState) (i : Nat) :
    runLoop bodies now (fuel + 1) s i =
      if h : i < s.threads.length then
        (if s.threads.get ⟨i, h⟩ ≠ 0 ∧
            (s.objs (s.threads.get ⟨i, h⟩)).active = true then
          (if (executeObj (bodies (s.threads.get ⟨i, h⟩)) now
                (s.objs (s.threads.get ⟨i, h⟩))).2 = PTStatus.ended ∨
              (executeObj (bodies (s.threads.get ⟨i, h⟩)) now
                (s.objs (s.threads.get ⟨i, h⟩))).2 = PTStatus.exited then
            runLoop bodies now fuel
              (removeThreadS
                { s with
                    objs := Function.update s.objs (s.threads.get ⟨i, h⟩)
                      (executeObj (bodies (s.threads.get ⟨i, h⟩)) now
                        (s.objs (s.threads.get ⟨i, h⟩))).1 }
                (s.threads.get ⟨i, h⟩)).1 i
          else
            runLoop bodies now fuel
              { s with
                  objs := Function.update s.objs (s.threads.get ⟨i, h⟩)
                    (executeObj (bodies (s.threads.get ⟨i, h⟩)) now
                      (s.objs (s.threads.get ⟨i, h⟩))).1 } (i + 1))
        else runLoop bodies now fuel s (i + 1))
      else s := rfl

lemma runLoop_out (bodies : Nat → ThreadObj → ThreadObj × PTStatus)
    (now : Nat) (fuel : Nat) (s : SchedState) (i : Nat)
    (h : s.threads.length ≤ i) : runLoop bodies now fuel s i = s := by
  cases fuel with
  | zero => rfl
  | succ f =>
      rw [runLoop_succ]
      rw [dif_neg (by omega)]

lemma executeObj_status (body : ThreadObj → ThreadObj × PTStatus) (now : Nat)
    (o : ThreadObj) (h : o.active = true) :
    (executeObj body now o).2 = (body { o with last_run_time := now }).2 := by
  simp only [executeObj, h]
  rw [if_neg (show ¬ (true = false) by decide)]
  split <;> rfl

lemma runLoop_nodup (bodies : Nat → ThreadObj → ThreadObj × PTStatus)
    (now : Nat) :
    ∀ (fuel : Nat) (s : SchedState) (i : Nat), s.threads.Nodup →
      (runLoop bodies now fuel s i).threads.Nodup := by
  intro fuel
  induction fuel with
  | zero => intro s i h; exact h
  | succ f ih =>
      intro s i h
      rw [runLoop_succ]
      split
      · split
        · split
          · exact ih _ _ (removeList_nodup _ _ h)
          · exact ih _ _ h
        · exact ih _ _ h
      · exact h

lemma runLoop_all_inactive (bodies : Nat → ThreadObj → ThreadObj × PTStatus)
    (now : Nat) :
    ∀ (fuel : Nat) (s : SchedState) (i : Nat),
      (∀ u ∈ s.threads, (s.objs u).active = false) →
      runLoop bodies now fuel s i = s := by
  intro fuel
  induction fuel with
  | zero => intro s i _; rfl
  | succ f ih =>
      intro s i hall
      rw [runLoop_succ]
      split
      · rename_i hlt
        have hin : (s.objs (s.threads.get ⟨i, hlt⟩)).active = false :=
          hall _ (List.get_mem _ _ _)
        have hcnot : ¬ (s.threads.get ⟨i, hlt⟩ ≠ 0 ∧
            (s.objs (s.threads.get ⟨i, hlt⟩)).active = true) := by
          intro hc
          have h2 := hc.2
          rw [hin] at h2
          exact absurd h2 (by decide)
        rw [if_neg hcnot]
        exact ih s (i + 1) hall
      · rfl

lemma runLoop_inactive_preserved
    (bodies : Nat → ThreadObj → ThreadObj × PTStatus) (now : Nat) :
    ∀ (fuel : Nat) (s : SchedState) (i t : Nat),
      (s.objs t).active = false →
      (runLoop bodies now fuel s i).objs t = s.objs t ∧
        (t ∈ s.threads → t ∈ (runLoop bodies now fuel s i).threads) := by
  intro fuel
  induction fuel with
  | zero => intro s i t _; exact ⟨rfl, fun h => h⟩
  | succ f ih =>
      intro s i t hin
      rw [runLoop_succ]
      split
      · rename_i hlt
        set t0 := s.threads.get ⟨i, hlt⟩ with ht0
        by_cases hact : t0 ≠ 0 ∧ (s.objs t0).active = true
        · rw [if_pos hact]
          have hne : t ≠ t0 := by
            intro he
            rw [he] at hin
            have h2 := hact.2
            rw [hin] at h2
            exact absurd h2 (by decide)
          set r := executeObj (bodies t0) now (s.objs t0) with hr
          set s1 : SchedState :=
            { s with objs := Function.update s.objs t0 r.1 } with hs1
          have hkeep : s1.objs t = s.objs t := Function.update_noteq hne _ _
          split
          · obtain ⟨ih1, ih2⟩ := ih (removeThreadS s1 t0).1 i t
              (by
                have h2 : (removeThreadS s1 t0).1.objs t = s.objs t := hkeep
                rw [h2]
                exact hin)
            refine ⟨?_, ?_⟩
            · rw [ih1]
              exact hkeep
            · intro hmem
              exact ih2 (removeList_mem_of_ne t0 t hne _ hmem)
          · obtain ⟨ih1, ih2⟩ := ih s1 (i + 1) t
              (by rw [hkeep]; exact hin)
            refine ⟨?_, ?_⟩
            · rw [ih1]
              exact hkeep
            · intro hmem
              exact ih2 hmem
        · rw [if_neg hact]
          exact ih s (i + 1) t hin
      · exact ⟨rfl, fun h => h⟩

lemma runLoop_nonterminal_mem
    (bodies : Nat → ThreadObj → ThreadObj × PTStatus) (now : Nat) :
    ∀ (fuel : Nat) (s : SchedState) (i u : Nat),
      (∀ o, (bodies u o).2 ≠ PTStatus.ended ∧
        (bodies u o).2 ≠ PTStatus.exited) →
      u ∈ s.threads → u ∈ (runLoop bodies now fuel s i).threads := by
  intro fuel
  induction fuel with
  | zero => intro s i u _ hmem; exact hmem
  | succ f ih =>
      intro s i u hbody hmem
      rw [runLoop_succ]
      split
      · rename_i hlt
        set t0 := s.threads.get ⟨i, hlt⟩ with ht0
        by_cases hact : t0 ≠ 0 ∧ (s.objs t0).active = true
        · rw [if_pos hact]
          set r := executeObj (bodies t0) now (s.objs t0) with hr
          have hst : r.2 = (bodies t0 { s.objs t0 with last_run_time := now }).2 := by
            rw [hr]
            exact executeObj_status (bodies t0) now (s.objs t0) hact.2
          split
          · rename_i hterm
            have hne : t0 ≠ u := by
              intro he
              rw [he] at hst
              cases hterm with
              | inl h1 =>
                  rw [hst] at h1
                  exact (hbody _).1 h1
              | inr h1 =>
                  rw [hst] at h1
                  exact (hbody _).2 h1
            exact ih _ i u hbody (removeList_mem_of_ne t0 u (Ne.symm hne) _ hmem)
          · exact ih _ (i + 1) u hbody hmem
        · rw [if_neg hact]
          exact ih s (i + 1) u hbody hmem
      · exact hmem

lemma runLoop_fuel_irrel (bodies : Nat → ThreadObj → ThreadObj × PTStatus)
    (now : Nat) :
    ∀ (f g : Nat) (s : SchedState) (i : Nat),
      s.threads.length - i ≤ f → s.threads.length - i ≤ g →
      runLoop bodies now f s i = runLoop bodies now g s i := by
  intro f
  induction f with
  | zero =>
      intro g s i hf hg
      rw [runLoop_out bodies now 0 s i (by omega),
        runLoop_out bodies now g s i (by omega)]
  | succ f ih =>
      intro g s i hf hg
      by_cases hlt : i < s.threads.length
      · obtain ⟨g1, rfl⟩ : ∃ g1, g = g1 + 1 := by
          cases g with
          | zero => omega
          | succ g1 => exact ⟨g1, rfl⟩
        rw [runLoop_succ, runLoop_succ]
        rw [dif_pos hlt, dif_pos hlt]
        set t0 := s.threads.get ⟨i, hlt⟩ with ht0
        by_cases hact : t0 ≠ 0 ∧ (s.objs t0).active = true
        · rw [if_pos hact, if_pos hact]
          set r := executeObj (bodies t0) now (s.objs t0) with hr
          set s1 : SchedState :=
            { s with objs := Function.update s.objs t0 r.1 } with hs1
          have hfound : (removeList t0 s1.threads).2 = true :=
            removeList_found t0 s.threads (List.get_mem _ _ _)
          have hlen : (removeThreadS s1 t0).1.threads.length + 1 =
              s.threads.length :=
            removeList_length t0 s.threads hfound
          by_cases hterm : r.2 = PTStatus.ended ∨ r.2 = PTStatus.exited
          · rw [if_pos hterm, if_pos hterm]
            apply ih g1 _ i
            · omega
            · omega
          · rw [if_neg hterm, if_neg hterm]
            apply ih g1 _ (i + 1)
            · have : s1.threads.length = s.threads.length := rfl
              omega
            · have : s1.threads.length = s.threads.length := rfl
              omega
        · rw [if_neg hact, if_neg hact]
          apply ih g1 s (i + 1)
          · omega
          · omega
      · rw [runLoop_out bodies now (f + 1) s i (by omega),
          runLoop_out bodies now g s i (by omega)]

/-- A scheduler operation sequence is duplicate-free when every `addThread`
call in it supplies a pointer that is not registered at that moment. -/
def goodSOps (bodies : Nat → ThreadObj → ThreadObj × PTStatus) (now : Nat) :
    SchedState → List SOp → Bool
  | _, [] => true
  | s, SOp.add t :: ops =>
      decide (t ∉ s.threads) && goodSOps bodies now ((addThreadS s t).1) ops
  | s, SOp.remove t :: ops =>
      goodSOps bodies now ((removeThreadS s t).1) ops
  | s, SOp.runOnce :: ops =>
      goodSOps bodies now (runOnce bodies now s) ops

lemma addThreadS_nodup (s : SchedState) (t : Nat) (h : s.threads.Nodup)
    (hnot : t ∉ s.threads) : (addThreadS s t).1.threads.Nodup := by
  rw [addThreadS]
  split
  · exact h
  · refine List.Nodup.append h (List.nodup_singleton t) ?_
    intro a ha hb
    rw [List.mem_singleton] at hb
    subst hb
    exact hnot ha

lemma runSOps_nodup (bodies : Nat → ThreadObj → ThreadObj × PTStatus)
    (now : Nat) :
    ∀ (ops : List SOp) (s : SchedState), s.threads.Nodup →
      goodSOps bodies now s ops = true →
      (runSOps bodies now s ops).threads.Nodup := by
  intro ops
  induction ops with
  | nil => intro s h _; exact h
  | cons op rest ih =>
      intro s h hg
      cases op with
      | add t =>
          simp only [goodSOps, Bool.and_eq_true, decide_eq_true_eq] at hg
          exact ih _ (addThreadS_nodup s t h hg.1) hg.2
      | remove t =>
          simp only [goodSOps] at hg
          exact ih _ (removeList_nodup t s.threads h) hg
      | runOnce =>
          simp only [goodSOps] at hg
          exact ih _ (runLoop_nodup bodies now _ _ 0 h) hg

/-- C4 amended: `addThread` performs no duplicate check (see the
counterexample), so the no-duplicates invariant holds exactly for the
operation sequences that never `addThread` an already-registered pointer:
for every such sequence of `addThread`, `removeThread`, and `runOnce`
calls starting from an empty scheduler, each registered thread pointer
occurs at most once in the list. -/
theorem scheduler_nodup_invariant
    (bodies : Nat → ThreadObj → ThreadObj × PTStatus) (now : Nat)
    (h : Nat → ThreadObj) (ops : List SOp)
    (hg : goodSOps bodies now (SchedState.start h) ops = true) :
    (runSOps bodies now (SchedState.start h) ops).threads.Nodup :=
  runSOps_nodup bodies now ops _ (by simp [SchedState.start]) hg

theorem scheduler_nodup_invariant_witness :
    (runSOps bodiesWaiting 0 (SchedState.start heap0)
      [SOp.add 1, SOp.add 2, SOp.runOnce, SOp.remove 1]).threads.Nodup :=
  scheduler_nodup_invariant bodiesWaiting 0 heap0
    [SOp.add 1, SOp.add 2, SOp.runOnce, SOp.remove 1] (by decide)

/-- C10: a registered thread whose active flag is false is skipped by
`runOnce` without its body being invoked (its object, including run
counter and timestamp, is untouched) and is never removed from the list;
a pass over a list of only-inactive threads changes neither the list nor
any thread object; and a thread whose body never returns a terminal
status is never removed by a pass, so removal happens only when an
invoked body returns `ENDED` or `EXITED`. -/
theorem scheduler_inactive_skipped
    (bodies : Nat → ThreadObj → ThreadObj × PTStatus) (now : Nat)
    (s : SchedState) (t : Nat) :
    ((s.objs t).active = false → t ∈ s.threads →
      t ∈ (runOnce bodies now s).threads ∧
        (runOnce bodies now s).objs t = s.objs t) ∧
    ((∀ u ∈ s.threads, (s.objs u).active = false) →
      (runOnce bodies now s).threads = s.threads ∧
        (runOnce bodies now s).objs = s.objs) ∧
    ((∀ o, (bodies t o).2 ≠ PTStatus.ended ∧
        (bodies t o).2 ≠ PTStatus.exited) →
      t ∈ s.threads → t ∈ (runOnce bodies now s).threads) := by
  refine ⟨?_, ?_, ?_⟩
  · intro hin hmem
    obtain ⟨h1, h2⟩ := runLoop_inactive_preserved bodies now s.threads.length
      { s with scheduler_ticks := (s.scheduler_ticks + 1) % UINT32 } 0 t hin
    exact ⟨h2 hmem, h1⟩
  · intro hall
    unfold runOnce
    rw [runLoop_all_inactive bodies now s.threads.length
      { s with scheduler_ticks := (s.scheduler_ticks + 1) % UINT32 } 0 hall]
    exact ⟨rfl, rfl⟩
  · intro hb hmem
    exact runLoop_nonterminal_mem bodies now s.threads.length
      { s with scheduler_ticks := (s.scheduler_ticks + 1) % UINT32 } 0 t hb hmem

/-- Concrete scheduler for the C10 witness: threads 1 (active) and 2
(stopped) registered. -/
def schedW : SchedState :=
  ⟨[1, 2], fun u => if u = 2 then stoppedObj else ThreadObj.init,
    PTEventQueue.init, 0⟩

/-- Concrete scheduler for the C10 witness: only the stopped thread 2
registered. -/
def schedW2 : SchedState :=
  ⟨[2], fun u => if u = 2 then stoppedObj else ThreadObj.init,
    PTEventQueue.init, 0⟩

theorem scheduler_inactive_skipped_witness :
    (2 ∈ (runOnce bodiesWaiting 0 schedW).threads ∧
      (runOnce bodiesWaiting 0 schedW).objs 2 = schedW.objs 2) ∧
    ((runOnce bodiesWaiting 0 schedW2).threads = schedW2.threads ∧
      (runOnce bodiesWaiting 0 schedW2).objs = schedW2.objs) ∧
    1 ∈ (runOnce bodiesWaiting 0 schedW).threads :=
  ⟨(scheduler_inactive_skipped bodiesWaiting 0 schedW 2).1 (by decide)
      (by decide),
   (scheduler_inactive_skipped bodiesWaiting 0 schedW2 2).2.1 (by decide),
   (scheduler_inactive_skipped bodiesWaiting 0 schedW 1).2.2
     (fun o => ⟨fun hc => PTStatus.noConfusion hc,
       fun hc => PTStatus.noConfusion hc⟩) (by decide)⟩
